import Mathlib

/-
  Shallow embedding of mouscache's in-memory cache engine
  (src/mouscache/src/memory_cache.rs).

  The two-level store of `Inner` is modelled with association lists standing
  in for `HashMap`, plain `List String` standing in for `HashSet<String>`
  (all stored sets built by the operations are duplicate-free), and `Nat`
  instants standing in for `std::time::Instant` (monotonic, so `duration_since`
  is truncated subtraction).  `Result<T>` becomes `Except String T`.  The two
  partial-function behaviours in the source - the `panic!("Invalid type in
  mouscache")` on a failed downcast in `get`, and the panicking `HashMap`
  index `sets[key2]` in `set_move` - are modelled by an outer `Option`, with
  `none` meaning the call panics.
-/

set_option maxHeartbeats 1000000

namespace MemoryCache

/-- Association-list model of `HashMap` lookup (`map.get(key)`). -/
def hmGet {α : Type} (m : List (String × α)) (k : String) : Option α :=
  match m with
  | [] => none
  | (k2, v) :: rest => if k2 = k then some v else hmGet rest k

/-- Association-list model of `HashMap::remove(key)`. -/
def hmErase {α : Type} (m : List (String × α)) (k : String) : List (String × α) :=
  match m with
  | [] => []
  | (k2, v) :: rest => if k2 = k then hmErase rest k else (k2, v) :: hmErase rest k

/-- Association-list model of `HashMap::insert(key, value)` (replacing any
previous binding for `key`). -/
def hmInsert {α : Type} (m : List (String × α)) (k : String) (v : α) :
    List (String × α) :=
  (k, v) :: hmErase m k

/-- Boolean membership in the list model of `HashSet<String>`
(`set.contains(&x)`). -/
def memberB (s : List String) (x : String) : Bool :=
  match s with
  | [] => false
  | y :: rest => if y = x then true else memberB rest x

/-- `HashSet::insert(m)`: add the member when absent. -/
def setInsert (s : List String) (m : String) : List String :=
  if memberB s m then s else m :: s

/-- `HashSet::remove(&m)`. -/
def setRemove (s : List String) (m : String) : List String :=
  s.filter (fun x => !(memberB [m] x))

/-- `a.difference(&b).cloned().collect()`: members of `a` not in `b`. -/
def setDifference (a b : List String) : List String :=
  a.filter (fun x => !(memberB b x))

/-- `a.intersection(&b).cloned().collect()`: members of `a` also in `b`. -/
def setIntersection (a b : List String) : List String :=
  a.filter (fun x => memberB b x)

/-- `a.union(&b).cloned().collect()`: members of `a`, then members of `b`
not already in `a`. -/
def setUnion (a b : List String) : List String :=
  a ++ b.filter (fun x => !(memberB a x))

/-- The `sets` field of `Inner`: named unique-member containers. -/
abbrev SetMap := List (String × List String)

/-- The `hashsets` field of `Inner`: named field-to-value containers. -/
abbrev HashStore := List (String × List (String × String))

/-- Shared body of `Inner::ensure_set_exists` / `Inner::ensure_hash_exists`:
create the container when absent, no-op when present.  (The source's error
branch - `writer.insert` returning a previous value for a key just checked
absent - cannot occur in the sequential model, so the function is total.) -/
def ensureContainer {α : Type} (m : List (String × List α)) (k : String) :
    List (String × List α) :=
  if (hmGet m k).isSome then m else (k, []) :: m

/-- `Inner::ensure_set_exists`. -/
def ensure_set_exists (S : SetMap) (k : String) : SetMap :=
  ensureContainer S k

/-- `Inner::ensure_hash_exists`. -/
def ensure_hash_exists (hs : HashStore) (k : String) : HashStore :=
  ensureContainer hs k

/-- `CacheFunc::set_add`: auto-create the container, insert every member,
return `Ok(true)`; the `Err` branch (container still missing after
`ensure_set_exists`) is kept to mirror the source's structure. -/
def set_add (S : SetMap) (k : String) (members : List String) :
    Except String (SetMap × Bool) :=
  let S1 := ensure_set_exists S k
  match hmGet S1 k with
  | some s => Except.ok (hmInsert S1 k (members.foldl setInsert s), true)
  | none => Except.error "Unable to retrive set from key"

/-- The destination-write handler shared by `set_diffstore`, `set_interstore`
and `set_unionstore`: the source's `if let Ok(true) = self.set_add(name, &res)
\x7b Ok(res.len() as u64) \x7d else \x7b Ok(0) \x7d`.  `fallback` is the state
in force when `set_add` did not complete. -/
def storeFinish (fallback : SetMap) (len : Nat) :
    Except String (SetMap × Bool) → Except String (SetMap × Nat)
  | Except.ok (S2, true) => Except.ok (S2, len)
  | Except.ok (S2, false) => Except.ok (S2, 0)
  | Except.error _ => Except.ok (fallback, 0)

/-- `CacheFunc::set_diff`: skip keys with no container, seed with the first
existing container, fold set difference over the rest in list order. -/
def set_diff (S : SetMap) (keys : List String) : List String :=
  match keys.filterMap (fun k => hmGet S k) with
  | [] => []
  | s :: rest => rest.foldl setDifference s

/-- `CacheFunc::set_diffstore`. -/
def set_diffstore (S : SetMap) (diffName : String) (keys : List String) :
    Except String (SetMap × Nat) :=
  let S1 := ensure_set_exists S diffName
  match keys.filterMap (fun k => hmGet S1 k) with
  | [] => Except.ok (S1, 0)
  | s :: rest =>
      let res := rest.foldl setDifference s
      storeFinish S1 res.length (set_add S1 diffName res)

/-- `CacheFunc::set_inter`. -/
def set_inter (S : SetMap) (keys : List String) : List String :=
  match keys.filterMap (fun k => hmGet S k) with
  | [] => []
  | s :: rest => rest.foldl setIntersection s

/-- `CacheFunc::set_interstore`. -/
def set_interstore (S : SetMap) (interName : String) (keys : List String) :
    Except String (SetMap × Nat) :=
  let S1 := ensure_set_exists S interName
  match keys.filterMap (fun k => hmGet S1 k) with
  | [] => Except.ok (S1, 0)
  | s :: rest =>
      let res := rest.foldl setIntersection s
      storeFinish S1 res.length (set_add S1 interName res)

/-- `CacheFunc::set_union`. -/
def set_union (S : SetMap) (keys : List String) : List String :=
  match keys.filterMap (fun k => hmGet S k) with
  | [] => []
  | s :: rest => rest.foldl setUnion s

/-- `CacheFunc::set_unionstore`. -/
def set_unionstore (S : SetMap) (unionName : String) (keys : List String) :
    Except String (SetMap × Nat) :=
  let S1 := ensure_set_exists S unionName
  match keys.filterMap (fun k => hmGet S1 k) with
  | [] => Except.ok (S1, 0)
  | s :: rest =>
      let res := rest.foldl setUnion s
      storeFinish S1 res.length (set_add S1 unionName res)

/-- `CacheFunc::set_move`.  The source indexes `sets[key2]` directly, which
panics when `key2` has no container; `none` models that panic.  When
`key1 = key2` the later removal acts on the container as already mutated by
the insertion, exactly as the shared `RwLock` reference in the source does. -/
def set_move (S : SetMap) (key1 key2 member : String) :
    Option (SetMap × Bool) :=
  match hmGet S key1 with
  | none => some (S, false)
  | some s1 =>
      if memberB s1 member then
        match hmGet S key2 with
        | none => none
        | some s2 =>
            let S1 := hmInsert S key2 (setInsert s2 member)
            match hmGet S1 key1 with
            | some s1b => some (hmInsert S1 key1 (setRemove s1b member), true)
            | none => none
      else some (S, false)

/-- `CacheFunc::hash_multiple_get`: when the container exists, one lookup per
requested field in order; when it does not, the loop body never runs and the
empty vector is returned. -/
def hash_multiple_get (hs : HashStore) (key : String) (fields : List String) :
    List (Option String) :=
  match hmGet hs key with
  | some h => fields.map (fun f => hmGet h f)
  | none => []

/-- `CacheFunc::hash_set_if_not_exists`: auto-create the container, then
either refuse (field present) or write the field. -/
def hash_set_if_not_exists (hs : HashStore) (key field value : String) :
    Except String (HashStore × Bool) :=
  let hs1 := ensure_hash_exists hs key
  match hmGet hs1 key with
  | some h =>
      if (hmGet h field).isSome then Except.ok (hs1, false)
      else Except.ok (hmInsert hs1 key (hmInsert h field value), true)
  | none => Except.error "Unable to retrive hash from key"

/-- The value stored under field `f` of container `k`, when both exist. -/
def hashLookup (hs : HashStore) (k f : String) : Option String :=
  (hmGet hs k).bind (fun h => hmGet h f)

/-- `Expiration`: insertion instant and TTL, both in seconds on a monotonic
clock modelled by `Nat`. -/
structure Expiration where
  insertionTime : Nat
  ttl : Nat
deriving DecidableEq, Repr

/-- `Expiration::is_expired`: `now.duration_since(insertion) >= ttl`. -/
def Expiration.is_expired (e : Expiration) (now : Nat) : Bool :=
  e.ttl ≤ now - e.insertionTime

/-- A `Box<dyn Cacheable>` entry: its concrete type identity (what
`as_any().downcast_ref::<O>()` checks) and its contents. -/
structure StoredObj where
  ty : String
  data : String
deriving DecidableEq, Repr

/-- The `obj_cache` field of `Inner`. -/
abbrev ObjMap := List (String × (StoredObj × Option Expiration))

/-- `gen_key`: `format!("\x7b\x7d:\x7b\x7d", O::model_name(), key)`. -/
def gen_key (model key : String) : String :=
  model ++ ":" ++ key

/-- `CacheAccess::insert_with`: unconditional overwrite; an expiration is
recorded iff a TTL is supplied. -/
def insert_with (cache : ObjMap) (model ty key data : String)
    (expiresAfter : Option Nat) (now : Nat) : ObjMap :=
  hmInsert cache (gen_key model key)
    (⟨ty, data⟩, expiresAfter.map (fun ttl => ⟨now, ttl⟩))

/-- `CacheAccess::insert`: delegates to `insert_with` with the object's own
`expires_after()` (here the parameter `expiresAfter`). -/
def insert (cache : ObjMap) (model ty key data : String)
    (expiresAfter : Option Nat) (now : Nat) : ObjMap :=
  insert_with cache model ty key data expiresAfter now

/-- `CacheAccess::get`: an expired entry is deleted and reported absent; a
live entry is downcast to the requested type `ty` (`none` models the
`panic!("Invalid type in mouscache")` on a mismatch) and returned with the
store untouched. -/
def get (cache : ObjMap) (model ty key : String) (now : Nat) :
    Option (ObjMap × Option StoredObj) :=
  let tkey := gen_key model key
  match hmGet cache tkey with
  | some (obj, exp) =>
      let deleteEntry := match exp with
        | some e => e.is_expired now
        | none => false
      if deleteEntry then some (hmErase cache tkey, none)
      else if obj.ty = ty then some (cache, some obj)
      else none
  | none => some (cache, none)

/-- `CacheAccess::contains_key`: presence in the map only; expiration is
never consulted. -/
def contains_key (cache : ObjMap) (model key : String) : Bool :=
  (hmGet cache (gen_key model key)).isSome

/-! ### Plumbing lemmas -/

theorem memberB_iff (s : List String) (x : String) :
    memberB s x = true ↔ x ∈ s := by
  induction s with
  | nil => simp [memberB]
  | cons y rest ih =>
    by_cases h : y = x
    · subst h; simp [memberB]
    · simp [memberB, h, ih, Ne.symm h]

theorem memberB_eq_false (s : List String) (x : String) :
    memberB s x = false ↔ x ∉ s := by
  rw [← memberB_iff]
  cases memberB s x <;> simp

theorem mem_setDifference (a b : List String) (x : String) :
    x ∈ setDifference a b ↔ x ∈ a ∧ x ∉ b := by
  simp only [setDifference, List.mem_filter, Bool.not_eq_true', memberB_eq_false]

theorem mem_setIntersection (a b : List String) (x : String) :
    x ∈ setIntersection a b ↔ x ∈ a ∧ x ∈ b := by
  simp only [setIntersection, List.mem_filter, memberB_iff]

theorem mem_setUnion (a b : List String) (x : String) :
    x ∈ setUnion a b ↔ x ∈ a ∨ x ∈ b := by
  simp only [setUnion, List.mem_append, List.mem_filter, Bool.not_eq_true',
    memberB_eq_false]
  constructor
  · rintro (h | ⟨h, _⟩)
    · exact Or.inl h
    · exact Or.inr h
  · rintro (h | h)
    · exact Or.inl h
    · by_cases ha : x ∈ a
      · exact Or.inl ha
      · exact Or.inr ⟨h, ha⟩

theorem mem_setInsert (s : List String) (m x : String) :
    x ∈ setInsert s m ↔ x ∈ s ∨ x = m := by
  unfold setInsert
  by_cases h : memberB s m = true
  · have hm : m ∈ s := (memberB_iff s m).1 h
    simp only [if_pos h]
    constructor
    · exact Or.inl
    · rintro (hx | rfl)
      · exact hx
      · exact hm
  · simp only [if_neg h, List.mem_cons]
    tauto

theorem mem_foldl_setInsert (ms : List String) (s : List String) (x : String) :
    x ∈ ms.foldl setInsert s ↔ x ∈ s ∨ x ∈ ms := by
  induction ms generalizing s with
  | nil => simp
  | cons m rest ih =>
    simp only [List.foldl_cons, ih, mem_setInsert, List.mem_cons]
    tauto

theorem mem_foldl_setDifference (rest : List (List String)) (s : List String)
    (x : String) :
    x ∈ rest.foldl setDifference s ↔ x ∈ s ∧ ∀ t ∈ rest, x ∉ t := by
  induction rest generalizing s with
  | nil => simp
  | cons t ts ih =>
    simp only [List.foldl_cons, ih, mem_setDifference, List.mem_cons]
    constructor
    · rintro ⟨⟨hs, ht⟩, hall⟩
      refine ⟨hs, ?_⟩
      rintro u (rfl | hu)
      · exact ht
      · exact hall u hu
    · rintro ⟨hs, hall⟩
      exact ⟨⟨hs, hall t (Or.inl rfl)⟩, fun u hu => hall u (Or.inr hu)⟩

theorem mem_foldl_setIntersection (rest : List (List String)) (s : List String)
    (x : String) :
    x ∈ rest.foldl setIntersection s ↔ x ∈ s ∧ ∀ t ∈ rest, x ∈ t := by
  induction rest generalizing s with
  | nil => simp
  | cons t ts ih =>
    simp only [List.foldl_cons, ih, mem_setIntersection, List.mem_cons]
    constructor
    · rintro ⟨⟨hs, ht⟩, hall⟩
      refine ⟨hs, ?_⟩
      rintro u (rfl | hu)
      · exact ht
      · exact hall u hu
    · rintro ⟨hs, hall⟩
      exact ⟨⟨hs, hall t (Or.inl rfl)⟩, fun u hu => hall u (Or.inr hu)⟩

theorem mem_foldl_setUnion (rest : List (List String)) (s : List String)
    (x : String) :
    x ∈ rest.foldl setUnion s ↔ x ∈ s ∨ ∃ t ∈ rest, x ∈ t := by
  induction rest generalizing s with
  | nil => simp
  | cons t ts ih =>
    simp only [List.foldl_cons, ih, mem_setUnion, List.mem_cons]
    constructor
    · rintro ((hs | ht) | ⟨u, hu, hx⟩)
      · exact Or.inl hs
      · exact Or.inr ⟨t, Or.inl rfl, ht⟩
      · exact Or.inr ⟨u, Or.inr hu, hx⟩
    · rintro (hs | ⟨u, (rfl | hu), hx⟩)
      · exact Or.inl (Or.inl hs)
      · exact Or.inl (Or.inr hx)
      · exact Or.inr ⟨u, hu, hx⟩

theorem hmGet_hmErase_self {α : Type} (m : List (String × α)) (k : String) :
    hmGet (hmErase m k) k = none := by
  induction m with
  | nil => rfl
  | cons p rest ih =>
    obtain ⟨k2, v⟩ := p
    by_cases h : k2 = k
    · simpa [hmErase, h] using ih
    · simpa [hmErase, hmGet, h] using ih

theorem hmGet_hmErase_ne {α : Type} (m : List (String × α)) (k k2 : String)
    (h : k2 ≠ k) : hmGet (hmErase m k) k2 = hmGet m k2 := by
  induction m with
  | nil => rfl
  | cons p rest ih =>
    obtain ⟨k3, v⟩ := p
    by_cases h3 : k3 = k
    · subst h3
      simp only [hmErase, if_pos rfl, hmGet, if_neg (Ne.symm h)]
      exact ih
    · by_cases h4 : k3 = k2
      · subst h4
        simp [hmErase, hmGet, h3]
      · simpa [hmErase, hmGet, h3, h4] using ih

theorem hmGet_hmInsert_self {α : Type} (m : List (String × α)) (k : String)
    (v : α) : hmGet (hmInsert m k v) k = some v := by
  simp [hmInsert, hmGet]

theorem hmGet_hmInsert_ne {α : Type} (m : List (String × α)) (k k2 : String)
    (v : α) (h : k2 ≠ k) : hmGet (hmInsert m k v) k2 = hmGet m k2 := by
  simp only [hmInsert, hmGet, if_neg (fun hh => h (Eq.symm hh))]
  exact hmGet_hmErase_ne m k k2 h

theorem hmGet_ensureContainer_self {α : Type} (m : List (String × List α))
    (k : String) : hmGet (ensureContainer m k) k = some ((hmGet m k).getD []) := by
  unfold ensureContainer
  cases h : hmGet m k with
  | some s => simp [h]
  | none => simp [h, hmGet]

theorem hmGet_ensureContainer_ne {α : Type} (m : List (String × List α))
    (k k2 : String) (h : k2 ≠ k) :
    hmGet (ensureContainer m k) k2 = hmGet m k2 := by
  unfold ensureContainer
  cases hk : (hmGet m k).isSome with
  | true => simp
  | false => simp [hmGet, if_neg (fun hh => h (Eq.symm hh))]

theorem set_add_eq (S : SetMap) (k : String) (members : List String) :
    set_add S k members =
      Except.ok (hmInsert (ensure_set_exists S k) k
        (members.foldl setInsert ((hmGet S k).getD [])), true) := by
  have h : hmGet (ensure_set_exists S k) k = some ((hmGet S k).getD []) :=
    hmGet_ensureContainer_self S k
  unfold set_add
  simp only [h]

/-! ### Claim theorems -/

/-- Claim C1: `set_diff`, `set_inter` and `set_union` skip keys with no
existing set container, seed the fold with the first existing container's
member set, fold each subsequent existing container's members into the
running result with difference / intersection / union in list order, and
return an empty result when no key resolves to an existing container. -/
theorem set_algebra_fold_spec (S : SetMap) (keys : List String) :
    (keys.filterMap (fun k => hmGet S k) = [] →
      set_diff S keys = [] ∧ set_inter S keys = [] ∧ set_union S keys = []) ∧
    (∀ s rest, keys.filterMap (fun k => hmGet S k) = s :: rest →
      ∀ x, (x ∈ set_diff S keys ↔ x ∈ s ∧ ∀ t ∈ rest, x ∉ t) ∧
           (x ∈ set_inter S keys ↔ x ∈ s ∧ ∀ t ∈ rest, x ∈ t) ∧
           (x ∈ set_union S keys ↔ x ∈ s ∨ ∃ t ∈ rest, x ∈ t)) := by
  constructor
  · intro h
    simp [set_diff, set_inter, set_union, h]
  · intro s rest h x
    simp only [set_diff, set_inter, set_union, h]
    exact ⟨mem_foldl_setDifference rest s x, mem_foldl_setIntersection rest s x,
      mem_foldl_setUnion rest s x⟩

/-- Witness for claim C1: on containers a = \x7b1,2,3\x7d and b = \x7b2,3,4\x7d
with key c absent, the key list [c] yields empty results, and on [a, b, c]
the difference is characterised with c skipped. -/
theorem set_algebra_fold_spec_witness :
    (set_diff [("a", ["1", "2", "3"]), ("b", ["2", "3", "4"])] ["c"] = [] ∧
      set_inter [("a", ["1", "2", "3"]), ("b", ["2", "3", "4"])] ["c"] = [] ∧
      set_union [("a", ["1", "2", "3"]), ("b", ["2", "3", "4"])] ["c"] = []) ∧
    ("1" ∈ set_diff [("a", ["1", "2", "3"]), ("b", ["2", "3", "4"])] ["a", "b", "c"] ↔
      "1" ∈ ["1", "2", "3"] ∧ ∀ t ∈ [["2", "3", "4"]], "1" ∉ t) :=
  ⟨(set_algebra_fold_spec [("a", ["1", "2", "3"]), ("b", ["2", "3", "4"])]
      ["c"]).1 (by decide),
   ((set_algebra_fold_spec [("a", ["1", "2", "3"]), ("b", ["2", "3", "4"])]
      ["a", "b", "c"]).2 ["1", "2", "3"] [["2", "3", "4"]] (by decide) "1").1⟩

/-- Claim C2 (code bug, evaluated at the failing input): with source
container a = \x7bm\x7d and no destination container b, `set_move a b m`
panics (the source indexes `sets[key2]` on the missing key) instead of
returning `false` and leaving the source unchanged. -/
theorem set_move_missing_dst_panics :
    set_move [("a", ["m"])] "a" "b" "m" = none := by decide

theorem ensureContainer_idem {α : Type} (m : List (String × List α))
    (k : String) :
    ensureContainer (ensureContainer m k) k = ensureContainer m k := by
  have h := hmGet_ensureContainer_self m k
  show (if (hmGet (ensureContainer m k) k).isSome then ensureContainer m k
        else (k, []) :: ensureContainer m k) = ensureContainer m k
  rw [h]
  rfl

/-- `set_add` on a state where the container was just ensured: it succeeds,
the container afterwards holds its previous members plus the new ones, and
every other key is untouched. -/
theorem set_add_ensured (S : SetMap) (dname : String) (res : List String) :
    ∃ S2, set_add (ensure_set_exists S dname) dname res = Except.ok (S2, true) ∧
      (∀ x, x ∈ (hmGet S2 dname).getD [] ↔
        x ∈ (hmGet S dname).getD [] ∨ x ∈ res) ∧
      (∀ k, k ≠ dname → hmGet S2 k = hmGet (ensure_set_exists S dname) k) := by
  have hd : hmGet (ensure_set_exists S dname) dname =
      some ((hmGet S dname).getD []) := hmGet_ensureContainer_self S dname
  have hidem : ensure_set_exists (ensure_set_exists S dname) dname =
      ensure_set_exists S dname := ensureContainer_idem S dname
  refine ⟨hmInsert (ensure_set_exists S dname) dname
      (res.foldl setInsert ((hmGet S dname).getD [])), ?_, ?_, ?_⟩
  · rw [set_add_eq, hidem, hd]
    simp
  · intro x
    rw [hmGet_hmInsert_self]
    simpa using mem_foldl_setInsert res ((hmGet S dname).getD []) x
  · intro k hk
    exact hmGet_hmInsert_ne _ dname k _ hk

/-- Counterexample to claim C4: with destination d = \x7bx\x7d already
existing and source a = \x7by\x7d, `set_unionstore d [a]` computes the
union \x7by\x7d of the sources, yet afterwards d holds \x7by, x\x7d - the
prior member x survives, so the destination is added to, not overwritten -
and the returned count 1 is the computed result's cardinality, not the
destination's resulting cardinality 2. -/
theorem set_unionstore_no_overwrite_cex :
    set_unionstore [("d", ["x"]), ("a", ["y"])] "d" ["a"] =
      Except.ok ([("d", ["y", "x"]), ("a", ["y"])], 1) ∧
    set_union [("d", ["x"]), ("a", ["y"])] ["a"] = ["y"] ∧
    "x" ∈ ["y", "x"] ∧ "x" ∉ (["y"] : List String) ∧
    (["y", "x"] : List String).length = 2 ∧ (1 : Nat) ≠ 2 := by
  refine ⟨rfl, rfl, by decide, by decide, rfl, by decide⟩

/-- Claim C4 as amended: when at least one source container exists (after the
destination has been ensured), each store variant computes the fold result,
creates the destination if absent, adds the computed members to the
destination's existing contents (prior members survive; no overwrite), and
returns the cardinality of the computed result, not of the destination's
final contents. -/
theorem set_store_accumulates (S : SetMap) (dname : String) (keys : List String)
    (s : List String) (rest : List (List String))
    (h : keys.filterMap (fun k => hmGet (ensure_set_exists S dname) k) =
      s :: rest) :
    (∃ S2, set_diffstore S dname keys =
        Except.ok (S2, (rest.foldl setDifference s).length) ∧
      ∀ x, x ∈ (hmGet S2 dname).getD [] ↔
        x ∈ (hmGet S dname).getD [] ∨ x ∈ rest.foldl setDifference s) ∧
    (∃ S2, set_interstore S dname keys =
        Except.ok (S2, (rest.foldl setIntersection s).length) ∧
      ∀ x, x ∈ (hmGet S2 dname).getD [] ↔
        x ∈ (hmGet S dname).getD [] ∨ x ∈ rest.foldl setIntersection s) ∧
    (∃ S2, set_unionstore S dname keys =
        Except.ok (S2, (rest.foldl setUnion s).length) ∧
      ∀ x, x ∈ (hmGet S2 dname).getD [] ↔
        x ∈ (hmGet S dname).getD [] ∨ x ∈ rest.foldl setUnion s) := by
  refine ⟨?_, ?_, ?_⟩
  · obtain ⟨S2, hadd, hmem, -⟩ := set_add_ensured S dname (rest.foldl setDifference s)
    refine ⟨S2, ?_, hmem⟩
    simp only [set_diffstore, h, hadd, storeFinish]
  · obtain ⟨S2, hadd, hmem, -⟩ := set_add_ensured S dname (rest.foldl setIntersection s)
    refine ⟨S2, ?_, hmem⟩
    simp only [set_interstore, h, hadd, storeFinish]
  · obtain ⟨S2, hadd, hmem, -⟩ := set_add_ensured S dname (rest.foldl setUnion s)
    refine ⟨S2, ?_, hmem⟩
    simp only [set_unionstore, h, hadd, storeFinish]

/-- Witness for claim C4 (amended): concrete instance with destination
d = \x7bx\x7d and source a = \x7by\x7d. -/
theorem set_store_accumulates_witness :
    ∃ S2, set_unionstore [("d", ["x"]), ("a", ["y"])] "d" ["a"] =
        Except.ok (S2, ((([["y"]].tail).foldl setUnion ["y"])).length) ∧
      ∀ x, x ∈ (hmGet S2 "d").getD [] ↔
        x ∈ (hmGet [("d", ["x"]), ("a", ["y"])] "d").getD [] ∨
          x ∈ (([["y"]].tail).foldl setUnion ["y"]) :=
  (set_store_accumulates [("d", ["x"]), ("a", ["y"])] "d" ["a"] ["y"] []
    (by decide)).2.2

/-- Claim C3 (code bug): the destination-write handler shared by
`set_diffstore`, `set_interstore` and `set_unionstore` maps a failed
`set_add` to `Ok` with cardinality zero - the failure is reported as a
successful result, never as an error. -/
theorem store_variant_failure_coerced (S : SetMap) (n : Nat) (msg : String) :
    storeFinish S n (Except.error msg) = Except.ok (S, 0) ∧
    ∀ e, storeFinish S n (Except.error msg) ≠ Except.error e := by
  constructor
  · rfl
  · intro e he
    simp [storeFinish] at he

/-- Witness for claim C3's theorem at a concrete failed write. -/
theorem store_variant_failure_coerced_witness :
    storeFinish [] 3 (Except.error "boom") = Except.ok ([], 0) ∧
    storeFinish [] 3 (Except.error "boom") ≠ Except.error "boom" :=
  ⟨(store_variant_failure_coerced [] 3 "boom").1,
   (store_variant_failure_coerced [] 3 "boom").2 "boom"⟩

/-- Claim C10: the store variants run `ensure_set_exists` on the destination
before reading the sources, so a destination key occurring in the source
list counts as an existing (empty) container; in particular, with a
existing and non-empty and d absent, `set_interstore d [d, a]` returns 0,
not the cardinality of a. -/
theorem set_interstore_dest_in_sources (S : SetMap) (d a : String)
    (sa : List String) (hd : hmGet S d = none) (ha : hmGet S a = some sa)
    (hne : sa ≠ []) :
    set_interstore S d [d, a] = Except.ok (hmInsert ((d, []) :: S) d [], 0) ∧
    sa.length ≠ 0 := by
  have had : d ≠ a := by
    intro hh
    rw [hh, ha] at hd
    cases hd
  have hS1 : ensure_set_exists S d = (d, []) :: S := by
    simp [ensure_set_exists, ensureContainer, hd]
  have hgd : hmGet ((d, []) :: S) d = some ([] : List String) := by
    simp [hmGet]
  have hga : hmGet ((d, []) :: S) a = some sa := by
    simp [hmGet, had, ha]
  constructor
  · have hfm : List.filterMap (fun k => hmGet ((d, []) :: S) k) [d, a] =
        [[], sa] := by
      simp [List.filterMap_cons, hgd, hga]
    have hadd : set_add ((d, []) :: S) d [] =
        Except.ok (hmInsert ((d, []) :: S) d [], true) := by
      have := set_add_eq ((d, []) :: S) d []
      rwa [show ensure_set_exists ((d, []) :: S) d = (d, []) :: S by
          simp [ensure_set_exists, ensureContainer, hgd], hgd] at this
    simp only [set_interstore, hS1, hfm, List.foldl_cons, List.foldl_nil]
    rw [show setIntersection [] sa = [] from rfl, hadd]
    rfl
  · intro hlen
    exact hne (List.eq_nil_of_length_eq_zero hlen)

/-- Witness for claim C10: a = \x7b1\x7d exists, d does not. -/
theorem set_interstore_dest_in_sources_witness :
    set_interstore [("a", ["1"])] "d" ["d", "a"] =
      Except.ok (hmInsert [("d", []), ("a", ["1"])] "d" [], 0) ∧
    (["1"] : List String).length ≠ 0 :=
  set_interstore_dest_in_sources [("a", ["1"])] "d" "a" ["1"]
    (by decide) (by decide) (by decide)

/-- Claim C5: on `get`, an entry whose expiration has elapsed is reported
absent and removed from the store during that same access (lazy expiry); an
entry whose expiration has not elapsed is returned and left in place. -/
theorem get_lazy_expiry (cache : ObjMap) (model ty key : String)
    (obj : StoredObj) (e : Expiration) (now : Nat)
    (hlook : hmGet cache (gen_key model key) = some (obj, some e)) :
    (e.is_expired now = true →
      get cache model ty key now =
        some (hmErase cache (gen_key model key), none)) ∧
    (e.is_expired now = false → obj.ty = ty →
      get cache model ty key now = some (cache, some obj)) := by
  constructor
  · intro hexp
    simp [get, hlook, hexp]
  · intro hexp hty
    simp [get, hlook, hexp, hty]

/-- Witness for claim C5: entry inserted at instant 0 with TTL 3 is removed
and reported absent by `get` at instant 5, and returned intact at
instant 1. -/
theorem get_lazy_expiry_witness :
    get [("m:k", (⟨"t", "v"⟩, some ⟨0, 3⟩))] "m" "t" "k" 5 =
      some (hmErase [("m:k", (⟨"t", "v"⟩, some ⟨0, 3⟩))] (gen_key "m" "k"),
        none) ∧
    hmErase ([("m:k", (⟨"t", "v"⟩, some ⟨0, 3⟩))] : ObjMap) (gen_key "m" "k") =
      [] ∧
    get [("m:k", (⟨"t", "v"⟩, some ⟨0, 3⟩))] "m" "t" "k" 1 =
      some ([("m:k", (⟨"t", "v"⟩, some ⟨0, 3⟩))], some ⟨"t", "v"⟩) :=
  ⟨(get_lazy_expiry [("m:k", (⟨"t", "v"⟩, some ⟨0, 3⟩))] "m" "t" "k"
      ⟨"t", "v"⟩ ⟨0, 3⟩ 5 (by decide)).1 (by decide),
   by decide,
   (get_lazy_expiry [("m:k", (⟨"t", "v"⟩, some ⟨0, 3⟩))] "m" "t" "k"
      ⟨"t", "v"⟩ ⟨0, 3⟩ 1 (by decide)).2 (by decide) rfl⟩

/-- Claim C6: `contains_key` reports presence purely from the map, without
consulting expiration, so an expired-but-not-yet-accessed entry is reported
present while `get` on the same key at the same instant reports absence. -/
theorem contains_key_ignores_expiration (cache : ObjMap)
    (model ty key : String) (obj : StoredObj) (e : Expiration) (now : Nat)
    (hlook : hmGet cache (gen_key model key) = some (obj, some e))
    (hexp : e.is_expired now = true) :
    contains_key cache model key = true ∧
    get cache model ty key now =
      some (hmErase cache (gen_key model key), none) := by
  constructor
  · simp [contains_key, hlook]
  · simp [get, hlook, hexp]

/-- Witness for claim C6: at instant 7 the TTL-2 entry inserted at instant 0
is still reported present by `contains_key`, while `get` reports absence. -/
theorem contains_key_ignores_expiration_witness :
    contains_key [("u:q", (⟨"u", "w"⟩, some ⟨0, 2⟩))] "u" "q" = true ∧
    get [("u:q", (⟨"u", "w"⟩, some ⟨0, 2⟩))] "u" "u" "q" 7 =
      some (hmErase [("u:q", (⟨"u", "w"⟩, some ⟨0, 2⟩))] (gen_key "u" "q"),
        none) :=
  contains_key_ignores_expiration [("u:q", (⟨"u", "w"⟩, some ⟨0, 2⟩))]
    "u" "u" "q" ⟨"u", "w"⟩ ⟨0, 2⟩ 7 (by decide) (by decide)

/-- Claim C7: inserting an object and then calling `get` for the same key
and type before any TTL has elapsed, with no intervening operations,
returns the inserted object (and leaves the entry in place). -/
theorem insert_get_roundtrip (cache : ObjMap) (model ty key data : String)
    (expAfter : Option Nat) (now now2 : Nat)
    (hlive : ∀ ttl, expAfter = some ttl → now2 - now < ttl) :
    get (insert cache model ty key data expAfter now) model ty key now2 =
      some (insert cache model ty key data expAfter now, some ⟨ty, data⟩) := by
  cases expAfter with
  | none =>
      simp [insert, insert_with, get, hmGet_hmInsert_self]
  | some ttl =>
      have hl : (⟨now, ttl⟩ : Expiration).is_expired now2 = false := by
        have h2 := hlive ttl rfl
        simp only [Expiration.is_expired, decide_eq_false_iff_not, not_le]
        omega
      simp [insert, insert_with, get, hmGet_hmInsert_self, hl]

/-- Witness for claim C7: insert at instant 0 with TTL 3, read back at
instant 2. -/
theorem insert_get_roundtrip_witness :
    get (insert [] "m" "t" "k" "v" (some 3) 0) "m" "t" "k" 2 =
      some (insert [] "m" "t" "k" "v" (some 3) 0, some ⟨"t", "v"⟩) :=
  insert_get_roundtrip [] "m" "t" "k" "v" (some 3) 0 2
    (by intro ttl h; cases h; decide)

/-- Counterexample to claim C8: when the container for the key does not
exist, `hash_multiple_get` returns the empty vector, not a vector of `None`
of the same length as the request. -/
theorem hash_multiple_get_absent_cex :
    hash_multiple_get [] "h" ["f1"] = [] ∧
    (hash_multiple_get [] "h" ["f1"]).length ≠ (["f1"] : List String).length :=
  ⟨rfl, by decide⟩

/-- Claim C8 as amended: when the container exists, the result has the same
length and order as the requested fields, `Some value` for present fields
and `None` for absent ones; when the container does not exist at all, the
result is the empty vector. -/
theorem hash_multiple_get_shape (hs : HashStore) (key : String)
    (fields : List String) :
    (∀ h, hmGet hs key = some h →
      (hash_multiple_get hs key fields).length = fields.length ∧
      ∀ i, (hash_multiple_get hs key fields).get? i =
        (fields.get? i).map (fun f => hmGet h f)) ∧
    (hmGet hs key = none → hash_multiple_get hs key fields = []) := by
  constructor
  · intro h hh
    constructor
    · simp [hash_multiple_get, hh]
    · intro i
      simp [hash_multiple_get, hh, List.get?_eq_getElem?, List.getElem?_map]
  · intro hh
    simp [hash_multiple_get, hh]

/-- Witness for claim C8 (amended): container h = \x7bf1 -> v1\x7d queried
for [f1, f2], and a missing container queried for [f1]. -/
theorem hash_multiple_get_shape_witness :
    (hash_multiple_get [("h", [("f1", "v1")])] "h" ["f1", "f2"]).length =
      (["f1", "f2"] : List String).length ∧
    (hash_multiple_get [("h", [("f1", "v1")])] "h" ["f1", "f2"]).get? 1 =
      ((["f1", "f2"] : List String).get? 1).map
        (fun f => hmGet [("f1", "v1")] f) ∧
    hash_multiple_get [("h", [("f1", "v1")])] "x" ["f1"] = [] :=
  ⟨((hash_multiple_get_shape [("h", [("f1", "v1")])] "h" ["f1", "f2"]).1
      [("f1", "v1")] (by decide)).1,
   ((hash_multiple_get_shape [("h", [("f1", "v1")])] "h" ["f1", "f2"]).1
      [("f1", "v1")] (by decide)).2 1,
   (hash_multiple_get_shape [("h", [("f1", "v1")])] "x" ["f1"]).2 (by decide)⟩

/-- Claim C9: `hash_set_if_not_exists` returns `false` and leaves the state
completely unchanged when the field is already present; when the field is
absent it writes it, leaves every other field and every other container
unchanged, and returns `true`. -/
theorem hash_set_if_not_exists_spec (hs : HashStore) (key field value : String) :
    (∀ h, hmGet hs key = some h → (hmGet h field).isSome = true →
      hash_set_if_not_exists hs key field value = Except.ok (hs, false)) ∧
    (hashLookup hs key field = none →
      ∃ hs2, hash_set_if_not_exists hs key field value =
          Except.ok (hs2, true) ∧
        hashLookup hs2 key field = some value ∧
        (∀ f, f ≠ field → hashLookup hs2 key f = hashLookup hs key f) ∧
        (∀ k, k ≠ key → hmGet hs2 k = hmGet hs k)) := by
  constructor
  · intro h hh hf
    have hens : ensure_hash_exists hs key = hs := by
      simp [ensure_hash_exists, ensureContainer, hh]
    simp [hash_set_if_not_exists, hens, hh, hf]
  · intro habs
    cases hc : hmGet hs key with
    | some h =>
        have hf : hmGet h field = none := by
          simpa [hashLookup, hc] using habs
        have hens : ensure_hash_exists hs key = hs := by
          simp [ensure_hash_exists, ensureContainer, hc]
        refine ⟨hmInsert hs key (hmInsert h field value), ?_, ?_, ?_, ?_⟩
        · simp [hash_set_if_not_exists, hens, hc, hf]
        · simp [hashLookup, hmGet_hmInsert_self]
        · intro f hfne
          simp only [hashLookup, hmGet_hmInsert_self, hc, Option.bind]
          exact hmGet_hmInsert_ne h field f value hfne
        · intro k hk
          exact hmGet_hmInsert_ne hs key k _ hk
    | none =>
        have hens : ensure_hash_exists hs key = (key, []) :: hs := by
          simp [ensure_hash_exists, ensureContainer, hc]
        have hg1 : hmGet ((key, []) :: hs) key =
            some ([] : List (String × String)) := by
          simp [hmGet]
        refine ⟨hmInsert ((key, []) :: hs) key (hmInsert [] field value),
          ?_, ?_, ?_, ?_⟩
        · simp [hash_set_if_not_exists, hens, hg1, hmGet]
        · simp [hashLookup, hmGet_hmInsert_self, hmInsert, hmGet, hmErase]
        · intro f hfne
          simp only [hashLookup, hmGet_hmInsert_self, hc, Option.bind]
          rw [show (hmInsert [] field value : List (String × String)) =
              [(field, value)] from rfl]
          simp [hmGet, Ne.symm hfne]
        · intro k hk
          rw [hmGet_hmInsert_ne _ key k _ hk]
          simp [hmGet, Ne.symm hk]

/-- Witness for claim C9: container h = \x7bf1 -> v1\x7d refuses a second
write to f1, and accepts a first write to f2 preserving f1. -/
theorem hash_set_if_not_exists_spec_witness :
    hash_set_if_not_exists [("h", [("f1", "v1")])] "h" "f1" "v9" =
      Except.ok ([("h", [("f1", "v1")])], false) ∧
    ∃ hs2, hash_set_if_not_exists [("h", [("f1", "v1")])] "h" "f2" "v2" =
        Except.ok (hs2, true) ∧
      hashLookup hs2 "h" "f2" = some "v2" ∧
      (∀ f, f ≠ "f2" → hashLookup hs2 "h" f =
        hashLookup [("h", [("f1", "v1")])] "h" f) ∧
      (∀ k, k ≠ "h" → hmGet hs2 k = hmGet [("h", [("f1", "v1")])] k) :=
  ⟨(hash_set_if_not_exists_spec [("h", [("f1", "v1")])] "h" "f1" "v9").1
      [("f1", "v1")] (by decide) (by decide),
   (hash_set_if_not_exists_spec [("h", [("f1", "v1")])] "h" "f2" "v2").2
      (by decide)⟩

end MemoryCache
